import Mathlib

/-!
# Verification of `read_pressure_sensor.c` (pressure-sensor ADC conversion)

Shallow embedding of the conversion routine `ConvertADCReadingToPressure`
from `src/read_pressure_sensor.c`, together with proofs of the spec's
claims about it.

Modelling conventions:
* C `int` / `int32_t` / `int64_t` values are modelled as `Int`.  In the
  in-range (binary-search / interpolation) path every intermediate value
  provably fits in 32 bits, so plain `Int` arithmetic is exact there.
  The one narrowing conversion that can actually overflow — the `int64_t`
  extrapolation result stored into the `int32_t` variable `pressure` — is
  modelled explicitly by `wrap32`.
* C integer division on `int` operands truncates toward zero; it is
  modelled by `Int.tdiv`.
* The macro `TABLE_SIZE` is `(sizeof(pressureTable)/sizeof(pressureTable[0])) - 1`.
  Used as an array index or loop bound it evaluates to 90 (the last index
  of the 91-entry table).  In the expression `sum / TABLE_SIZE` the
  expansion is `sum / 91 - 1` (division binds tighter than the trailing
  `- 1`), so each "mean" in the extrapolation path is `S / 91 - 1`; the
  embedding reproduces this faithfully.
-/

namespace PressureSensor

/-- One row of the calibration table: `{ int32_t pressure; uint16_t adc; }`. -/
structure PressureTableEntry where
  pressure : Int
  adc : Int
deriving Repr, DecidableEq

set_option maxHeartbeats 2000000 in
/-- The 91-entry calibration table `pressureTable` from the C source
(pressures 10000 .. 100000 in steps of 1000). -/
def pressureTable : List PressureTableEntry := [
  ⟨10000, 1696⟩, ⟨11000, 1909⟩, ⟨12000, 2118⟩, ⟨13000, 2272⟩, ⟨14000, 2366⟩,
  ⟨15000, 2448⟩, ⟨16000, 2570⟩, ⟨17000, 2745⟩, ⟨18000, 2931⟩, ⟨19000, 3073⟩,
  ⟨20000, 3151⟩, ⟨21000, 3200⟩, ⟨22000, 3278⟩, ⟨23000, 3411⟩, ⟨24000, 3573⟩,
  ⟨25000, 3706⟩, ⟨26000, 3777⟩, ⟨27000, 3808⟩, ⟨28000, 3853⟩, ⟨29000, 3955⟩,
  ⟨30000, 4100⟩, ⟨31000, 4236⟩, ⟨32000, 4316⟩, ⟨33000, 4348⟩, ⟨34000, 4382⟩,
  ⟨35000, 4468⟩, ⟨36000, 4610⟩, ⟨37000, 4762⟩, ⟨38000, 4871⟩, ⟨39000, 4927⟩,
  ⟨40000, 4971⟩, ⟨41000, 5058⟩, ⟨42000, 5210⟩, ⟨43000, 5390⟩, ⟨44000, 5541⟩,
  ⟨45000, 5639⟩, ⟨46000, 5710⟩, ⟨47000, 5812⟩, ⟨48000, 5979⟩, ⟨49000, 6190⟩,
  ⟨50000, 6389⟩, ⟨51000, 6534⟩, ⟨52000, 6641⟩, ⟨53000, 6762⟩, ⟨54000, 6943⟩,
  ⟨55000, 7177⟩, ⟨56000, 7414⟩, ⟨57000, 7604⟩, ⟨58000, 7743⟩, ⟨59000, 7877⟩,
  ⟨60000, 8060⟩, ⟨61000, 8302⟩, ⟨62000, 8560⟩, ⟨63000, 8778⟩, ⟨64000, 8938⟩,
  ⟨65000, 9074⟩, ⟨66000, 9243⟩, ⟨67000, 9470⟩, ⟨68000, 9726⟩, ⟨69000, 9954⟩,
  ⟨70000, 10119⟩, ⟨71000, 10244⟩, ⟨72000, 10383⟩, ⟨73000, 10577⟩, ⟨74000, 10810⟩,
  ⟨75000, 11028⟩, ⟨76000, 11187⟩, ⟨77000, 11292⟩, ⟨78000, 11394⟩, ⟨79000, 11542⟩,
  ⟨80000, 11739⟩, ⟨81000, 11937⟩, ⟨82000, 12085⟩, ⟨83000, 12170⟩, ⟨84000, 12237⟩,
  ⟨85000, 12340⟩, ⟨86000, 12498⟩, ⟨87000, 12675⟩, ⟨88000, 12815⟩, ⟨89000, 12893⟩,
  ⟨90000, 12938⟩, ⟨91000, 13007⟩, ⟨92000, 13135⟩, ⟨93000, 13299⟩, ⟨94000, 13444⟩,
  ⟨95000, 13531⟩, ⟨96000, 13575⟩, ⟨97000, 13631⟩, ⟨98000, 13744⟩, ⟨99000, 13908⟩,
  ⟨100000, 14073⟩]

/-- `FIXED_POINT_ARITH`: the ×100 fixed-point scale factor. -/
def FIXED_POINT_ARITH : Int := 100

/-- The value of the macro `TABLE_SIZE` in index/bound position:
`sizeof(pressureTable)/sizeof(pressureTable[0]) - 1 = 90`, the last index. -/
def TABLE_SIZE : Nat := pressureTable.length - 1

/-- Table lookup `pressureTablePtr[i]` (a read of flash memory; the C code
never indexes out of bounds, which is proved below, so the default entry is
never actually consulted). -/
def tblEntry (i : Nat) : PressureTableEntry := pressureTable.getD i ⟨0, 0⟩

/-- `pressureTablePtr[i].pressure`. -/
def tblP (i : Nat) : Int := (tblEntry i).pressure

/-- `pressureTablePtr[i].adc` (a `uint16_t`, promoted to `int` wherever the
C code uses it in arithmetic or comparisons). -/
def tblA (i : Nat) : Int := (tblEntry i).adc

/-- How the binary-search loop of the in-range path exits. -/
inductive SearchExit where
  | exact (mid : Nat)
  | collapse (s e : Nat)
  | fuelOut
deriving Repr, DecidableEq

/-- The `while (readingFound == 0)` binary-search loop, one constructor per
exit.  At each iteration `midPoint = searchWindowStart +
(searchWindowEnd - searchWindowStart) / 2` (the C code keeps `midPoint` in a
variable and re-computes it whenever the window moves, which is the same
thing).  `fuel` bounds the number of iterations; the loop is proved below to
exit long before any realistic fuel runs out. -/
def searchLoop (a : Int) : Nat → Nat → Nat → SearchExit
  | 0, _, _ => .fuelOut
  | fuel + 1, s, e =>
    let mid := s + (e - s) / 2
    if a = tblA mid then .exact mid
    else if mid = s then .collapse s e
    else if a < tblA mid then searchLoop a fuel s mid
    else searchLoop a fuel mid e

/-- Number of loop-body executions of `searchLoop` until it exits (the
exiting iteration included); `fuel + 1` when fuel runs out first. -/
def searchSteps (a : Int) : Nat → Nat → Nat → Nat
  | 0, _, _ => 1
  | fuel + 1, s, e =>
    let mid := s + (e - s) / 2
    if a = tblA mid then 1
    else if mid = s then 1
    else if a < tblA mid then searchSteps a fuel s mid + 1
    else searchSteps a fuel mid e + 1

/-- `pressure = P1 + ((P2 - P1) / (ADC2 - ADC1)) * (adcReading - ADC1)`:
the interpolation assignment with `searchWindowStart = s`,
`searchWindowEnd = e`.  All operands are C `int`s; the division truncates
toward zero (`Int.tdiv`). -/
def interp (s e : Nat) (a : Int) : Int :=
  tblP s + ((tblP e - tblP s).tdiv (tblA e - tblA s)) * (a - tblA s)

/-- The `for (int16_t i = 0; i <= TABLE_SIZE; i++)` accumulation loop of
the extrapolation path: `n` iterations remain, `i` is the current index,
and the accumulator tuple is
`(sumOfADC_iTimesP_i, sumOfADC_i, sumOfP_i, sumOfADC_iSquared)`. -/
def sumLoop : Nat → Nat → Int × Int × Int × Int → Int × Int × Int × Int
  | 0, _, sums => sums
  | n + 1, i, (sxy, sx, sy, sxx) =>
    sumLoop n (i + 1)
      (sxy + tblA i * ((tblP i).tdiv FIXED_POINT_ARITH),
       sx + tblA i,
       sy + (tblP i).tdiv FIXED_POINT_ARITH,
       sxx + tblA i * tblA i)

/-- The four accumulators after the loop ran over `i = 0 .. TABLE_SIZE`
(all 91 entries). -/
def extrapSums : Int × Int × Int × Int := sumLoop (TABLE_SIZE + 1) 0 (0, 0, 0, 0)

/-- `sumOfADC_iTimesP_i = Σ adc_i * (pressure_i / FIXED_POINT_ARITH)`. -/
def sumOfADC_iTimesP_i : Int := extrapSums.1

/-- `sumOfADC_i = Σ adc_i`. -/
def sumOfADC_i : Int := extrapSums.2.1

/-- `sumOfP_i = Σ (pressure_i / FIXED_POINT_ARITH)`. -/
def sumOfP_i : Int := extrapSums.2.2.1

/-- `sumOfADC_iSquared = Σ adc_i * adc_i`. -/
def sumOfADC_iSquared : Int := extrapSums.2.2.2

/-- `sum / TABLE_SIZE` as the C preprocessor actually expands it:
`sum / (sizeof(pressureTable)/sizeof(pressureTable[0])) - 1`, i.e.
`sum / 91 - 1` — the macro body has no outer parentheses, so the trailing
`- 1` applies to the quotient, after the division by the element count. -/
def divByTABLE_SIZE (sum : Int) : Int :=
  sum.tdiv (pressureTable.length : Int) - 1

/-- Two's-complement narrowing of an `int64_t` value into `int32_t`
(gcc semantics: reduction modulo 2^32 into `[-2^31, 2^31)`). -/
def wrap32 (x : Int) : Int := (x + 2 ^ 31) % 2 ^ 32 - 2 ^ 31

/-- The `slope` local of the extrapolation path. -/
def slopeC : Int :=
  let meanXY := divByTABLE_SIZE sumOfADC_iTimesP_i
  let meanX := divByTABLE_SIZE sumOfADC_i
  let meanY := divByTABLE_SIZE sumOfP_i
  let meanXX := divByTABLE_SIZE sumOfADC_iSquared
  ((meanXY - meanX * meanY) * FIXED_POINT_ARITH).tdiv (meanXX - meanX * meanX)

/-- The `intercept` local of the extrapolation path. -/
def interceptC : Int :=
  let meanXY := divByTABLE_SIZE sumOfADC_iTimesP_i
  let meanX := divByTABLE_SIZE sumOfADC_i
  let meanY := divByTABLE_SIZE sumOfP_i
  let meanXX := divByTABLE_SIZE sumOfADC_iSquared
  ((meanXX * meanY - meanX * meanXY) * FIXED_POINT_ARITH).tdiv (meanXX - meanX * meanX)

/-- The whole out-of-range path: least-squares accumulation, the four
`/ TABLE_SIZE` assignments, `slope`, `intercept`, and the final
`pressure = slope * adcReading + intercept` stored into the `int32_t`
variable `pressure` (hence `wrap32`). -/
def extrapolate (a : Int) : Int :=
  wrap32 (slopeC * a + interceptC)

/-- `ConvertADCReadingToPressure(adcReading, &pressureTable)`.  The
`.fuelOut` arm returns the initial value `0` of `pressure`; it is proved
unreachable (`searchLoop_no_fuelOut`). -/
def ConvertADCReadingToPressure (a : Int) : Int :=
  if tblA 0 ≤ a ∧ a ≤ tblA TABLE_SIZE then
    if a = tblA 0 then tblP 0
    else if a = tblA TABLE_SIZE then tblP TABLE_SIZE
    else
      match searchLoop a 90 0 TABLE_SIZE with
      | .exact mid => tblP mid
      | .collapse s e => interp s e a
      | .fuelOut => 0
  else
    extrapolate a

end PressureSensor

namespace PressureSensor

/-! ## Bounds-checked variant

`ConvertChk` mirrors `ConvertADCReadingToPressure` statement for statement,
but every table access goes through `List.get?` (so an out-of-bounds index
yields `none`), every division checks its divisor for zero first, and fuel
exhaustion of the loop yields `none`.  Proving `ConvertChk a = some
(ConvertADCReadingToPressure a)` for every `a` is the safety claim: all
accesses in bounds, all divisors nonzero, both paths total. -/

def searchLoopChk (a : Int) : Nat → Nat → Nat → Option SearchExit
  | 0, _, _ => none
  | fuel + 1, s, e =>
    match pressureTable.get? (s + (e - s) / 2) with
    | none => none
    | some en =>
      if a = en.adc then some (.exact (s + (e - s) / 2))
      else if s + (e - s) / 2 = s then some (.collapse s e)
      else if a < en.adc then searchLoopChk a fuel s (s + (e - s) / 2)
      else searchLoopChk a fuel (s + (e - s) / 2) e

def interpChk (s e : Nat) (a : Int) : Option Int :=
  match pressureTable.get? s, pressureTable.get? e with
  | some en1, some en2 =>
    if en2.adc - en1.adc = 0 then none
    else some (en1.pressure + ((en2.pressure - en1.pressure).tdiv (en2.adc - en1.adc)) * (a - en1.adc))
  | _, _ => none

def sumLoopChk : Nat → Nat → Int × Int × Int × Int → Option (Int × Int × Int × Int)
  | 0, _, sums => some sums
  | n + 1, i, (sxy, sx, sy, sxx) =>
    match pressureTable.get? i with
    | none => none
    | some en =>
      sumLoopChk n (i + 1)
        (sxy + en.adc * (en.pressure.tdiv FIXED_POINT_ARITH),
         sx + en.adc,
         sy + en.pressure.tdiv FIXED_POINT_ARITH,
         sxx + en.adc * en.adc)

def extrapolateChk (a : Int) : Option Int :=
  match sumLoopChk (TABLE_SIZE + 1) 0 (0, 0, 0, 0) with
  | none => none
  | some (sxy, sx, sy, sxx) =>
    if (pressureTable.length : Int) = 0 then none
    else
      let meanXY := divByTABLE_SIZE sxy
      let meanX := divByTABLE_SIZE sx
      let meanY := divByTABLE_SIZE sy
      let meanXX := divByTABLE_SIZE sxx
      if meanXX - meanX * meanX = 0 then none
      else
        some (wrap32 (((meanXY - meanX * meanY) * FIXED_POINT_ARITH).tdiv (meanXX - meanX * meanX) * a +
          ((meanXX * meanY - meanX * meanXY) * FIXED_POINT_ARITH).tdiv (meanXX - meanX * meanX)))

def ConvertChk (a : Int) : Option Int :=
  match pressureTable.get? 0, pressureTable.get? TABLE_SIZE with
  | some lo, some hi =>
    if lo.adc ≤ a ∧ a ≤ hi.adc then
      if a = lo.adc then some lo.pressure
      else if a = hi.adc then some hi.pressure
      else
        match searchLoopChk a 90 0 TABLE_SIZE with
        | some (.exact mid) => Option.map (fun en => en.pressure) (pressureTable.get? mid)
        | some (.collapse s e) => interpChk s e a
        | _ => none
    else extrapolateChk a
  | _, _ => none

/-! ## State-threaded variant

`ConvertSt` is `ConvertADCReadingToPressure` with the table memory passed
as explicit state through every access, the way the C machine sees the
pointed-to flash region: each read returns the entry *and* the (unchanged)
memory, and the final memory is returned alongside the result.  The purity
claim is that the final memory equals the initial one and that the result
is a function of `(reading, table)` alone. -/

def readTbl (t : List PressureTableEntry) (i : Nat) : PressureTableEntry × List PressureTableEntry :=
  (t.getD i ⟨0, 0⟩, t)

def searchLoopSt (a : Int) : Nat → Nat → Nat → List PressureTableEntry → SearchExit × List PressureTableEntry
  | 0, _, _, t => (.fuelOut, t)
  | fuel + 1, s, e, t =>
    let r := readTbl t (s + (e - s) / 2)
    if a = r.1.adc then (.exact (s + (e - s) / 2), r.2)
    else if s + (e - s) / 2 = s then (.collapse s e, r.2)
    else if a < r.1.adc then searchLoopSt a fuel s (s + (e - s) / 2) r.2
    else searchLoopSt a fuel (s + (e - s) / 2) e r.2

def interpSt (s e : Nat) (a : Int) (t : List PressureTableEntry) : Int × List PressureTableEntry :=
  let r1 := readTbl t s
  let r2 := readTbl r1.2 e
  (r1.1.pressure + ((r2.1.pressure - r1.1.pressure).tdiv (r2.1.adc - r1.1.adc)) * (a - r1.1.adc), r2.2)

def sumLoopSt : Nat → Nat → Int × Int × Int × Int → List PressureTableEntry → (Int × Int × Int × Int) × List PressureTableEntry
  | 0, _, sums, t => (sums, t)
  | n + 1, i, (sxy, sx, sy, sxx), t =>
    let r := readTbl t i
    sumLoopSt n (i + 1)
      (sxy + r.1.adc * (r.1.pressure.tdiv FIXED_POINT_ARITH),
       sx + r.1.adc,
       sy + r.1.pressure.tdiv FIXED_POINT_ARITH,
       sxx + r.1.adc * r.1.adc) r.2

def extrapolateSt (a : Int) (t : List PressureTableEntry) : Int × List PressureTableEntry :=
  let rs := sumLoopSt (TABLE_SIZE + 1) 0 (0, 0, 0, 0) t
  let meanXY := divByTABLE_SIZE rs.1.1
  let meanX := divByTABLE_SIZE rs.1.2.1
  let meanY := divByTABLE_SIZE rs.1.2.2.1
  let meanXX := divByTABLE_SIZE rs.1.2.2.2
  (wrap32 (((meanXY - meanX * meanY) * FIXED_POINT_ARITH).tdiv (meanXX - meanX * meanX) * a +
     ((meanXX * meanY - meanX * meanXY) * FIXED_POINT_ARITH).tdiv (meanXX - meanX * meanX)), rs.2)

def ConvertSt (a : Int) (t : List PressureTableEntry) : Int × List PressureTableEntry :=
  let rlo := readTbl t 0
  let rhi := readTbl rlo.2 TABLE_SIZE
  if rlo.1.adc ≤ a ∧ a ≤ rhi.1.adc then
    if a = rlo.1.adc then (rlo.1.pressure, rhi.2)
    else if a = rhi.1.adc then (rhi.1.pressure, rhi.2)
    else
      match searchLoopSt a 90 0 TABLE_SIZE rhi.2 with
      | (.exact mid, t2) => ((readTbl t2 mid).1.pressure, (readTbl t2 mid).2)
      | (.collapse s e, t2) => interpSt s e a t2
      | (.fuelOut, t2) => (0, t2)
  else extrapolateSt a rhi.2

/-- The extrapolation means as claim C3 words them: each accumulator is
divided by `n` — "N (the number of table entries)" — with integer division
to obtain the per-point means, which then feed the same slope/intercept
formulas.  This definition follows the claim text (it exists to be compared
against the code), instantiated below at `n = 91` (the actual entry count)
and `n = 90` (the count the claim names). -/
def extrapolateSpecMeans (n : Int) (a : Int) : Int :=
  let meanXY := sumOfADC_iTimesP_i.tdiv n
  let meanX := sumOfADC_i.tdiv n
  let meanY := sumOfP_i.tdiv n
  let meanXX := sumOfADC_iSquared.tdiv n
  wrap32 (((meanXY - meanX * meanY) * FIXED_POINT_ARITH).tdiv (meanXX - meanX * meanX) * a +
    ((meanXX * meanY - meanX * meanXY) * FIXED_POINT_ARITH).tdiv (meanXX - meanX * meanX))

/-! ## Basic facts about the calibration table -/

theorem pressureTable_length : pressureTable.length = 91 := by decide

theorem TABLE_SIZE_eq : TABLE_SIZE = 90 := by decide

/-- Adjacent ADC values strictly increase (the table is sorted ascending,
checked entry by entry). -/
theorem tblA_adjacent_lt : ∀ i : Fin TABLE_SIZE, tblA i.val < tblA (i.val + 1) := by
  decide

/-- Adjacent pressures strictly increase. -/
theorem tblP_adjacent_lt : ∀ i : Fin TABLE_SIZE, tblP i.val < tblP (i.val + 1) := by
  decide

/-- ADC values are strictly monotone across the whole table. -/
theorem tblA_mono {i j : Nat} (hij : i < j) (hj : j ≤ TABLE_SIZE) : tblA i < tblA j := by
  induction j with
  | zero => omega
  | succ k ih =>
    rcases Nat.lt_or_ge i k with h | h
    · exact lt_trans (ih h (by omega)) (tblA_adjacent_lt ⟨k, by rw [TABLE_SIZE_eq] at hj ⊢; omega⟩)
    · have hik : i = k := by omega
      subst hik
      exact tblA_adjacent_lt ⟨i, by rw [TABLE_SIZE_eq] at hj ⊢; omega⟩

theorem tblA_mono_le {i j : Nat} (hij : i ≤ j) (hj : j ≤ TABLE_SIZE) : tblA i ≤ tblA j := by
  rcases Nat.lt_or_ge i j with h | h
  · exact le_of_lt (tblA_mono h hj)
  · have : i = j := by omega
    simp [this]

theorem tblP_mono {i j : Nat} (hij : i < j) (hj : j ≤ TABLE_SIZE) : tblP i < tblP j := by
  induction j with
  | zero => omega
  | succ k ih =>
    rcases Nat.lt_or_ge i k with h | h
    · exact lt_trans (ih h (by omega)) (tblP_adjacent_lt ⟨k, by rw [TABLE_SIZE_eq] at hj ⊢; omega⟩)
    · have hik : i = k := by omega
      subst hik
      exact tblP_adjacent_lt ⟨i, by rw [TABLE_SIZE_eq] at hj ⊢; omega⟩

theorem tblP_mono_le {i j : Nat} (hij : i ≤ j) (hj : j ≤ TABLE_SIZE) : tblP i ≤ tblP j := by
  rcases Nat.lt_or_ge i j with h | h
  · exact le_of_lt (tblP_mono h hj)
  · have : i = j := by omega
    simp [this]

/-! ## The binary-search loop invariant -/

/-- Main loop invariant of the binary search: started on a window
`(s, e)` with `s < e ≤ TABLE_SIZE` whose endpoints strictly bracket the
reading, and with at least `e - s` fuel, the loop always exits, an
`exact` exit returns an in-bounds index holding exactly the reading, and
a `collapse` exit returns two *adjacent* in-bounds indices that strictly
bracket the reading. -/
theorem searchLoop_inv (a : Int) :
    ∀ fuel s e, s < e → e ≤ TABLE_SIZE → tblA s < a → a < tblA e → e - s ≤ fuel →
      ((∀ m, searchLoop a fuel s e = .exact m → m ≤ TABLE_SIZE ∧ tblA m = a) ∧
       (∀ u v, searchLoop a fuel s e = .collapse u v →
          s ≤ u ∧ v = u + 1 ∧ v ≤ e ∧ tblA u < a ∧ a < tblA v) ∧
       searchLoop a fuel s e ≠ .fuelOut) := by
  intro fuel
  induction fuel with
  | zero =>
    intro s e hse _ _ _ hfuel
    omega
  | succ n ih =>
    intro s e hse he hsa hae hfuel
    have hunf : searchLoop a (n + 1) s e =
        (if a = tblA (s + (e - s) / 2) then .exact (s + (e - s) / 2)
         else if s + (e - s) / 2 = s then .collapse s e
         else if a < tblA (s + (e - s) / 2) then searchLoop a n s (s + (e - s) / 2)
         else searchLoop a n (s + (e - s) / 2) e) := rfl
    by_cases h1 : a = tblA (s + (e - s) / 2)
    · rw [hunf, if_pos h1]
      refine ⟨?_, ?_, ?_⟩
      · intro m hm
        injection hm with hm
        subst hm
        exact ⟨by omega, h1.symm⟩
      · intro u v huv
        exact absurd huv (by simp)
      · simp
    · by_cases h2 : s + (e - s) / 2 = s
      · rw [hunf, if_neg h1, if_pos h2]
        refine ⟨?_, ?_, ?_⟩
        · intro m hm
          exact absurd hm (by simp)
        · intro u v huv
          injection huv with hu hv
          subst hu; subst hv
          have hes : e = s + 1 := by omega
          exact ⟨le_refl _, hes, by omega, hsa, hae⟩
        · simp
      · by_cases h3 : a < tblA (s + (e - s) / 2)
        · rw [hunf, if_neg h1, if_neg h2, if_pos h3]
          have hrec := ih s (s + (e - s) / 2) (by omega) (by omega) hsa h3 (by omega)
          exact ⟨hrec.1, fun u v huv => by
            have h := hrec.2.1 u v huv
            exact ⟨h.1, h.2.1, by omega, h.2.2.2⟩, hrec.2.2⟩
        · rw [hunf, if_neg h1, if_neg h2, if_neg h3]
          have hmid : tblA (s + (e - s) / 2) < a :=
            lt_of_le_of_ne (not_lt.mp h3) (fun hc => h1 hc.symm)
          have hrec := ih (s + (e - s) / 2) e (by omega) he hmid hae (by omega)
          exact ⟨hrec.1, fun u v huv => by
            have h := hrec.2.1 u v huv
            exact ⟨by omega, h.2.1, h.2.2.1, h.2.2.2⟩, hrec.2.2⟩

end PressureSensor

namespace PressureSensor

/-! ## More table facts and concrete values -/

theorem tblA_first : tblA 0 = 1696 := by decide

theorem tblA_last : tblA TABLE_SIZE = 14073 := by decide

/-- Reflection: a strict inequality between table ADC values reflects to
the indices. -/
theorem tblA_lt_of_lt {i j : Nat} (hi : i ≤ TABLE_SIZE) (h : tblA i < tblA j) : i < j := by
  rcases Nat.lt_or_ge i j with h1 | h1
  · exact h1
  · have := tblA_mono_le h1 hi
    omega

/-- `tblA` is injective on valid indices. -/
theorem tblA_inj {i j : Nat} (hi : i ≤ TABLE_SIZE) (hj : j ≤ TABLE_SIZE)
    (h : tblA i = tblA j) : i = j := by
  rcases Nat.lt_trichotomy i j with h1 | h1 | h1
  · have := tblA_mono h1 hj
    omega
  · exact h1
  · have := tblA_mono h1 hi
    omega

/-- C1.  For every entry `(P_i, ADC_i)` of the reference calibration table,
`ConvertADCReadingToPressure(ADC_i)` returns exactly `P_i`; with `i = 0`
and `i = TABLE_SIZE` this covers both boundary entries. -/
theorem convert_exact_match (i : Nat) (hi : i ≤ TABLE_SIZE) :
    ConvertADCReadingToPressure (tblA i) = tblP i := by
  have hTS : TABLE_SIZE = 90 := TABLE_SIZE_eq
  have hin : tblA 0 ≤ tblA i ∧ tblA i ≤ tblA TABLE_SIZE :=
    ⟨tblA_mono_le (Nat.zero_le i) hi, tblA_mono_le hi (le_refl _)⟩
  by_cases hi0 : i = 0
  · subst hi0
    unfold ConvertADCReadingToPressure
    rw [if_pos hin, if_pos rfl]
  · by_cases hiT : i = TABLE_SIZE
    · subst hiT
      have hne : ¬ tblA TABLE_SIZE = tblA 0 := by
        have := tblA_mono (show 0 < TABLE_SIZE by omega) (le_refl _)
        omega
      unfold ConvertADCReadingToPressure
      rw [if_pos hin, if_neg hne, if_pos rfl]
    · have h0i : tblA 0 < tblA i := tblA_mono (by omega) hi
      have hiT2 : tblA i < tblA TABLE_SIZE := tblA_mono (by omega) (le_refl _)
      have hinv := searchLoop_inv (tblA i) 90 0 TABLE_SIZE (by omega) (le_refl _) h0i hiT2 (by omega)
      unfold ConvertADCReadingToPressure
      rw [if_pos hin, if_neg (by omega), if_neg (by omega)]
      cases hres : searchLoop (tblA i) 90 0 TABLE_SIZE with
      | exact m =>
        obtain ⟨hm, hma⟩ := hinv.1 m hres
        simp only
        rw [tblA_inj hm hi hma]
      | collapse u v =>
        obtain ⟨_, hv, hvT, hua, hav⟩ := hinv.2.1 u v hres
        have h1 : u < i := tblA_lt_of_lt (by omega) hua
        have h2 : i < v := tblA_lt_of_lt hi hav
        omega
      | fuelOut => exact absurd hres hinv.2.2

/-- Witness for C1 at the last table entry. -/
theorem convert_exact_match_witness :
    TABLE_SIZE ≤ TABLE_SIZE ∧ ConvertADCReadingToPressure (tblA TABLE_SIZE) = tblP TABLE_SIZE :=
  ⟨le_refl _, convert_exact_match TABLE_SIZE (le_refl _)⟩

end PressureSensor

namespace PressureSensor

/-! ## Interpolation: characterising the in-range result -/

/-- Every in-range reading strictly below the last ADC value lies in some
segment `[tblA i, tblA (i+1))`. -/
theorem seg_exists {a : Int} (h0 : tblA 0 ≤ a) :
    ∀ k, k ≤ TABLE_SIZE → a < tblA k → ∃ i, i < k ∧ tblA i ≤ a ∧ a < tblA (i + 1) := by
  intro k
  induction k with
  | zero => intro _ hk; exact absurd hk (not_lt.mpr h0)
  | succ n ih =>
    intro hn hk
    by_cases hna : tblA n ≤ a
    · exact ⟨n, by omega, hna, hk⟩
    · have han : a < tblA n := by omega
      rcases Nat.eq_zero_or_pos n with h | h
      · subst h; omega
      · obtain ⟨i, hi⟩ := ih (by omega) han
        exact ⟨i, by omega, hi.2⟩

/-- On the segment `tblA i ≤ a < tblA (i+1)` the conversion is exactly the
interpolation between entries `i` and `i+1`. -/
theorem convert_eq_interp_on_seg {i : Nat} {a : Int} (hi : i < TABLE_SIZE)
    (h1 : tblA i ≤ a) (h2 : a < tblA (i + 1)) :
    ConvertADCReadingToPressure a = interp i (i + 1) a := by
  have hA0 : tblA 0 ≤ a := le_trans (tblA_mono_le (Nat.zero_le i) (by omega)) h1
  have hsucT : tblA (i + 1) ≤ tblA TABLE_SIZE := tblA_mono_le (by omega) (le_refl _)
  have haT : a < tblA TABLE_SIZE := lt_of_lt_of_le h2 hsucT
  have hin : tblA 0 ≤ a ∧ a ≤ tblA TABLE_SIZE := ⟨hA0, le_of_lt haT⟩
  by_cases ha0 : a = tblA 0
  · have hi0 : i = 0 := by
      by_contra hne
      have := tblA_mono (show 0 < i by omega) (by omega)
      omega
    subst hi0
    unfold ConvertADCReadingToPressure
    rw [if_pos hin, if_pos ha0, ha0]
    simp [interp]
  · have h0a : tblA 0 < a := lt_of_le_of_ne hA0 (Ne.symm ha0)
    have haTne : ¬ a = tblA TABLE_SIZE := by omega
    have hinv := searchLoop_inv a 90 0 TABLE_SIZE (by decide) (le_refl _) h0a haT (by decide)
    unfold ConvertADCReadingToPressure
    rw [if_pos hin, if_neg ha0, if_neg haTne]
    cases hres : searchLoop a 90 0 TABLE_SIZE with
    | exact m =>
      obtain ⟨hm, hma⟩ := hinv.1 m hres
      have hmlt : m < i + 1 := tblA_lt_of_lt hm (by omega)
      have hile : i ≤ m := by
        by_contra hc
        have := tblA_mono (show m < i by omega) (by omega)
        omega
      have hmi : m = i := by omega
      subst hmi
      simp only
      simp [interp, ← hma]
    | collapse u v =>
      obtain ⟨_, hv, hvT, hua, hav⟩ := hinv.2.1 u v hres
      have huT : u ≤ TABLE_SIZE := by omega
      have hult : u < i + 1 := tblA_lt_of_lt huT (by omega)
      have hilt : i < v := tblA_lt_of_lt (by omega) (by omega)
      have hui : u = i := by omega
      subst hui
      simp only
      rw [hv]
    | fuelOut => exact absurd hres hinv.2.2

/-- C2.  For an in-range reading strictly between adjacent entries
`(P1, ADC1) = table[i]` and `(P2, ADC2) = table[i+1]` (hence equal to no
entry), the result is `P1 + ((P2 - P1) / (ADC2 - ADC1)) * (a - ADC1)` with
the truncating division performed before the multiplication. -/
theorem convert_interpolation (i : Nat) (a : Int) (hi : i + 1 ≤ TABLE_SIZE)
    (h1 : tblA i < a) (h2 : a < tblA (i + 1)) :
    ConvertADCReadingToPressure a =
      tblP i + ((tblP (i + 1) - tblP i).tdiv (tblA (i + 1) - tblA i)) * (a - tblA i) :=
  convert_eq_interp_on_seg (by omega) (le_of_lt h1) h2

/-- Witness for C2: reading 1800 between entries 0 and 1 (spec scenario 3). -/
theorem convert_interpolation_witness :
    0 + 1 ≤ TABLE_SIZE ∧ tblA 0 < 1800 ∧ (1800 : Int) < tblA (0 + 1) ∧
    ConvertADCReadingToPressure 1800 =
      tblP 0 + ((tblP (0 + 1) - tblP 0).tdiv (tblA (0 + 1) - tblA 0)) * (1800 - tblA 0) ∧
    ConvertADCReadingToPressure 1800 = 10416 :=
  ⟨by decide, by decide, by decide,
   convert_interpolation 0 1800 (by decide) (by decide) (by decide), by decide⟩

/-- C10.  Whenever the binary search exits through the
`midPoint == searchWindowStart` (interpolation) branch, the final window is
two adjacent indices and they strictly bracket the reading. -/
theorem collapse_exit_adjacent (a : Int) (u v : Nat)
    (h1 : tblA 0 < a) (h2 : a < tblA TABLE_SIZE)
    (hc : searchLoop a 90 0 TABLE_SIZE = .collapse u v) :
    v = u + 1 ∧ tblA u < a ∧ a < tblA v := by
  have hinv := searchLoop_inv a 90 0 TABLE_SIZE (by decide) (le_refl _) h1 h2 (by decide)
  obtain ⟨_, hv, _, hua, hav⟩ := hinv.2.1 u v hc
  exact ⟨hv, hua, hav⟩

/-- Witness for C10: reading 1800 collapses onto the adjacent pair (0, 1). -/
theorem collapse_exit_adjacent_witness :
    tblA 0 < 1800 ∧ (1800 : Int) < tblA TABLE_SIZE ∧
    searchLoop 1800 90 0 TABLE_SIZE = .collapse 0 1 ∧
    (1 = 0 + 1 ∧ tblA 0 < 1800 ∧ (1800 : Int) < tblA 1) :=
  ⟨by decide, by decide, by decide,
   collapse_exit_adjacent 1800 0 1 (by decide) (by decide) (by decide)⟩

end PressureSensor

namespace PressureSensor

/-! ## Monotonicity of the in-range conversion -/

/-- Each segment slope `(P2 - P1) / (ADC2 - ADC1)` is nonnegative
(checked segment by segment on the concrete table). -/
theorem seg_slope_nonneg : ∀ i : Fin TABLE_SIZE,
    0 ≤ (tblP (i.val + 1) - tblP i.val).tdiv (tblA (i.val + 1) - tblA i.val) := by
  decide

/-- Truncation bound: slope times the full ADC gap never exceeds the
pressure gap (checked segment by segment on the concrete table). -/
theorem seg_slope_mul_le : ∀ i : Fin TABLE_SIZE,
    ((tblP (i.val + 1) - tblP i.val).tdiv (tblA (i.val + 1) - tblA i.val)) *
        (tblA (i.val + 1) - tblA i.val) ≤ tblP (i.val + 1) - tblP i.val := by
  decide

theorem interp_lower {i : Nat} {a : Int} (hi : i < TABLE_SIZE) (h1 : tblA i ≤ a) :
    tblP i ≤ interp i (i + 1) a := by
  have hm := seg_slope_nonneg ⟨i, hi⟩
  unfold interp
  exact le_add_of_nonneg_right (mul_nonneg hm (by omega))

theorem interp_upper {i : Nat} {a : Int} (hi : i < TABLE_SIZE) (h2 : a < tblA (i + 1)) :
    interp i (i + 1) a ≤ tblP (i + 1) := by
  have hm := seg_slope_nonneg ⟨i, hi⟩
  have hml := seg_slope_mul_le ⟨i, hi⟩
  unfold interp
  have h3 : (tblP (i + 1) - tblP i).tdiv (tblA (i + 1) - tblA i) * (a - tblA i) ≤
      (tblP (i + 1) - tblP i).tdiv (tblA (i + 1) - tblA i) * (tblA (i + 1) - tblA i) :=
    mul_le_mul_of_nonneg_left (by omega) hm
  linarith

theorem interp_mono_a {i : Nat} {a b : Int} (hi : i < TABLE_SIZE) (hab : a ≤ b) :
    interp i (i + 1) a ≤ interp i (i + 1) b := by
  have hm := seg_slope_nonneg ⟨i, hi⟩
  unfold interp
  have := mul_le_mul_of_nonneg_left (show a - tblA i ≤ b - tblA i by omega) hm
  linarith

/-- C4.  The conversion is non-decreasing on the table's ADC range. -/
theorem convert_monotone (a b : Int) (ha : tblA 0 ≤ a) (hab : a ≤ b)
    (hb : b ≤ tblA TABLE_SIZE) :
    ConvertADCReadingToPressure a ≤ ConvertADCReadingToPressure b := by
  by_cases hbT : b = tblA TABLE_SIZE
  · have hcb : ConvertADCReadingToPressure b = tblP TABLE_SIZE := by
      rw [hbT]; exact convert_exact_match TABLE_SIZE (le_refl _)
    rw [hcb]
    by_cases haT : a = tblA TABLE_SIZE
    · rw [haT, convert_exact_match TABLE_SIZE (le_refl _)]
    · have haTlt : a < tblA TABLE_SIZE := lt_of_le_of_ne (le_trans hab hb) haT
      obtain ⟨i, hik, h1, h2⟩ := seg_exists ha TABLE_SIZE (le_refl _) haTlt
      rw [convert_eq_interp_on_seg hik h1 h2]
      exact le_trans (interp_upper hik h2) (tblP_mono_le (by omega) (le_refl _))
  · have hbT2 : b < tblA TABLE_SIZE := lt_of_le_of_ne hb hbT
    have haT2 : a < tblA TABLE_SIZE := lt_of_le_of_lt hab hbT2
    obtain ⟨i, hik, hi1, hi2⟩ := seg_exists ha TABLE_SIZE (le_refl _) haT2
    obtain ⟨j, hjk, hj1, hj2⟩ := seg_exists (le_trans ha hab) TABLE_SIZE (le_refl _) hbT2
    rw [convert_eq_interp_on_seg hik hi1 hi2, convert_eq_interp_on_seg hjk hj1 hj2]
    rcases Nat.lt_or_ge i j with hij | hij
    · calc interp i (i + 1) a ≤ tblP (i + 1) := interp_upper hik hi2
        _ ≤ tblP j := tblP_mono_le (by omega) (by omega)
        _ ≤ interp j (j + 1) b := interp_lower hjk hj1
    · have hlt : i < j + 1 := tblA_lt_of_lt (by omega) (by omega)
      have hij2 : i = j := by omega
      subst hij2
      exact interp_mono_a hik hab

/-- Witness for C4: readings 1800 ≤ 14073, both in range. -/
theorem convert_monotone_witness :
    tblA 0 ≤ 1800 ∧ (1800 : Int) ≤ 14073 ∧ (14073 : Int) ≤ tblA TABLE_SIZE ∧
    ConvertADCReadingToPressure 1800 ≤ ConvertADCReadingToPressure 14073 :=
  ⟨by decide, by decide, by decide,
   convert_monotone 1800 14073 (by decide) (by decide) (by decide)⟩

end PressureSensor

namespace PressureSensor

/-! ## Termination and iteration count of the binary search -/

/-- Halving bound: on a window of size at most `2 ^ k`, the loop body runs
at most `k + 1` times. -/
theorem searchSteps_le (a : Int) :
    ∀ fuel k s e, s < e → e - s ≤ fuel → e - s ≤ 2 ^ k →
      searchSteps a fuel s e ≤ k + 1 := by
  intro fuel
  induction fuel with
  | zero => intro k s e h1 h2 _; omega
  | succ n ih =>
    intro k s e h1 h2 h3
    have hunf : searchSteps a (n + 1) s e =
        (if a = tblA (s + (e - s) / 2) then 1
         else if s + (e - s) / 2 = s then 1
         else if a < tblA (s + (e - s) / 2) then searchSteps a n s (s + (e - s) / 2) + 1
         else searchSteps a n (s + (e - s) / 2) e + 1) := rfl
    by_cases h4 : a = tblA (s + (e - s) / 2)
    · rw [hunf, if_pos h4]; omega
    · by_cases h5 : s + (e - s) / 2 = s
      · rw [hunf, if_neg h4, if_pos h5]; omega
      · obtain ⟨k2, rfl⟩ : ∃ k2, k = k2 + 1 := by
          cases k with
          | zero =>
            exfalso
            have : (2 : Nat) ^ 0 = 1 := by norm_num
            omega
          | succ k2 => exact ⟨k2, rfl⟩
        have hp : (2 : Nat) ^ (k2 + 1) = 2 * 2 ^ k2 := by ring
        rw [hp] at h3
        by_cases h6 : a < tblA (s + (e - s) / 2)
        · rw [hunf, if_neg h4, if_neg h5, if_pos h6]
          have := ih k2 s (s + (e - s) / 2) (by omega) (by omega) (by omega)
          omega
        · rw [hunf, if_neg h4, if_neg h5, if_neg h6]
          have := ih k2 (s + (e - s) / 2) e (by omega) (by omega) (by omega)
          omega

/-- The ceiling log of the table length: `⌈log₂ 91⌉ = 7`. -/
theorem clog_table_length : Nat.clog 2 pressureTable.length = 7 := by
  rw [pressureTable_length]
  have hu : Nat.clog 2 91 ≤ 7 :=
    (Nat.le_pow_iff_clog_le (by norm_num)).mp (by norm_num)
  have hl : ¬ Nat.clog 2 91 ≤ 6 := by
    intro h
    have := (Nat.le_pow_iff_clog_le (b := 2) (by norm_num)).mpr h
    norm_num at this
  omega

/-- C7 (amended).  For every in-range reading that reaches the loop, the
binary search terminates (never exhausts its fuel), and the loop body runs
at most `⌈log₂ N⌉ + 1 = 8` times.  The claim's bound `⌈log₂ N⌉ = 7` itself
is exceeded (see the counterexample at reading 2273). -/
theorem search_terminates_with_bound (a : Int)
    (h1 : tblA 0 < a) (h2 : a < tblA TABLE_SIZE) :
    searchLoop a 90 0 TABLE_SIZE ≠ .fuelOut ∧
    searchSteps a 90 0 TABLE_SIZE ≤ Nat.clog 2 pressureTable.length + 1 := by
  constructor
  · exact (searchLoop_inv a 90 0 TABLE_SIZE (by decide) (le_refl _) h1 h2 (by decide)).2.2
  · have hb := searchSteps_le a 90 7 0 TABLE_SIZE (by decide) (by decide) (by decide)
    rw [clog_table_length]
    omega

/-- Witness for C7's amended bound at the in-range reading 2273. -/
theorem search_terminates_with_bound_witness :
    tblA 0 < 2273 ∧ (2273 : Int) < tblA TABLE_SIZE ∧
    (searchLoop 2273 90 0 TABLE_SIZE ≠ .fuelOut ∧
     searchSteps 2273 90 0 TABLE_SIZE ≤ Nat.clog 2 pressureTable.length + 1) :=
  ⟨by decide, by decide, search_terminates_with_bound 2273 (by decide) (by decide)⟩

/-- Counterexample to C7 as stated: the in-range reading 2273 makes the
loop body run 8 times, exceeding `⌈log₂ N⌉ = 7`. -/
theorem search_bound_exceeded_at_2273 :
    tblA 0 < 2273 ∧ (2273 : Int) < tblA TABLE_SIZE ∧
    Nat.clog 2 pressureTable.length = 7 ∧
    searchSteps 2273 90 0 TABLE_SIZE = 8 :=
  ⟨by decide, by decide, clog_table_length, by decide⟩

end PressureSensor

namespace PressureSensor

/-! ## Safety: the bounds-checked variant never fails -/

theorem pressureTable_get? : ∀ i : Nat, i < 91 → pressureTable.get? i = some (tblEntry i) := by
  decide

/-- Under the loop invariant the checked search equals the unchecked one:
no out-of-bounds access happens. -/
theorem searchLoopChk_eq (a : Int) :
    ∀ fuel s e, s < e → e ≤ TABLE_SIZE → tblA s < a → a < tblA e → e - s ≤ fuel →
      searchLoopChk a fuel s e = some (searchLoop a fuel s e) := by
  intro fuel
  induction fuel with
  | zero => intro s e h1 _ _ _ h5; omega
  | succ n ih =>
    intro s e h1 h2 h3 h4 h5
    have hTS := TABLE_SIZE_eq
    have hget := pressureTable_get? (s + (e - s) / 2) (by omega)
    simp only [searchLoopChk, searchLoop, hget, tblA]
    by_cases h6 : a = (tblEntry (s + (e - s) / 2)).adc
    · rw [if_pos h6, if_pos h6]
    · rw [if_neg h6, if_neg h6]
      by_cases h7 : s + (e - s) / 2 = s
      · rw [if_pos h7, if_pos h7]
      · rw [if_neg h7, if_neg h7]
        by_cases h8 : a < (tblEntry (s + (e - s) / 2)).adc
        · rw [if_pos h8, if_pos h8]
          exact ih s (s + (e - s) / 2) (by omega) (by omega) h3 h8 (by omega)
        · rw [if_neg h8, if_neg h8]
          have h9 : (tblEntry (s + (e - s) / 2)).adc < a :=
            lt_of_le_of_ne (not_lt.mp h8) (fun hc => h6 hc.symm)
          exact ih (s + (e - s) / 2) e (by omega) h2 h9 h4 (by omega)

set_option maxRecDepth 4000 in
/-- C5.  The conversion is total and safe: the bounds-checked,
zero-division-checked variant succeeds on every integer reading and
returns exactly the unchecked result — every table index accessed is in
bounds, every executed division has a nonzero divisor, and every reading
produces a scaled-pressure integer through exactly one of the two paths. -/
theorem ConvertChk_total (a : Int) : ConvertChk a = some (ConvertADCReadingToPressure a) := by
  simp only [ConvertChk, ConvertADCReadingToPressure,
    pressureTable_get? 0 (by decide), pressureTable_get? TABLE_SIZE (by decide), tblA, tblP]
  by_cases hin : (tblEntry 0).adc ≤ a ∧ a ≤ (tblEntry TABLE_SIZE).adc
  · rw [if_pos hin, if_pos hin]
    by_cases h0 : a = (tblEntry 0).adc
    · rw [if_pos h0, if_pos h0]
    · rw [if_neg h0, if_neg h0]
      by_cases hT : a = (tblEntry TABLE_SIZE).adc
      · rw [if_pos hT, if_pos hT]
      · rw [if_neg hT, if_neg hT]
        have h0lt : (tblEntry 0).adc < a := lt_of_le_of_ne hin.1 (fun hc => h0 hc.symm)
        have hTlt : a < (tblEntry TABLE_SIZE).adc := lt_of_le_of_ne hin.2 hT
        have hinv := searchLoop_inv a 90 0 TABLE_SIZE (by decide) (le_refl _) h0lt hTlt (by decide)
        rw [searchLoopChk_eq a 90 0 TABLE_SIZE (by decide) (le_refl _) h0lt hTlt (by decide)]
        cases hres : searchLoop a 90 0 TABLE_SIZE with
        | exact m =>
          obtain ⟨hm, _⟩ := hinv.1 m hres
          have hTS := TABLE_SIZE_eq
          show Option.map (fun en => en.pressure) (pressureTable.get? m) =
            some (tblEntry m).pressure
          rw [pressureTable_get? m (by omega)]
          rfl
        | collapse u v =>
          obtain ⟨_, hv, hvT, _, _⟩ := hinv.2.1 u v hres
          have hTS := TABLE_SIZE_eq
          have hne : ¬ ((tblEntry v).adc - (tblEntry u).adc = 0) := by
            have := tblA_mono (show u < v by omega) hvT
            simp only [tblA] at this
            omega
          show interpChk u v a = some (interp u v a)
          unfold interpChk
          rw [pressureTable_get? u (by omega), pressureTable_get? v (by omega)]
          show (if (tblEntry v).adc - (tblEntry u).adc = 0 then none
                else some ((tblEntry u).pressure +
                  ((tblEntry v).pressure - (tblEntry u).pressure).tdiv
                      ((tblEntry v).adc - (tblEntry u).adc) *
                    (a - (tblEntry u).adc))) = some (interp u v a)
          rw [if_neg hne]
          rfl
        | fuelOut => exact absurd hres hinv.2.2
  · rw [if_neg hin, if_neg hin]
    rfl

end PressureSensor

namespace PressureSensor

/-! ## Purity and determinism -/

theorem searchLoopSt_state (a : Int) :
    ∀ fuel s e t, (searchLoopSt a fuel s e t).2 = t := by
  intro fuel
  induction fuel with
  | zero => intro s e t; rfl
  | succ n ih =>
    intro s e t
    simp only [searchLoopSt, readTbl]
    by_cases h1 : a = (t.getD (s + (e - s) / 2) ⟨0, 0⟩).adc
    · rw [if_pos h1]
    · rw [if_neg h1]
      by_cases h2 : s + (e - s) / 2 = s
      · rw [if_pos h2]
      · rw [if_neg h2]
        by_cases h3 : a < (t.getD (s + (e - s) / 2) ⟨0, 0⟩).adc
        · rw [if_pos h3]; exact ih s _ t
        · rw [if_neg h3]; exact ih _ e t

theorem sumLoopSt_state : ∀ n i sums t, (sumLoopSt n i sums t).2 = t := by
  intro n
  induction n with
  | zero => intro i sums t; rfl
  | succ m ih =>
    intro i sums t
    obtain ⟨sxy, sx, sy, sxx⟩ := sums
    simp only [sumLoopSt, readTbl]
    exact ih _ _ t

/-- The table memory is returned unchanged by a whole conversion call. -/
theorem ConvertSt_state (a : Int) (t : List PressureTableEntry) : (ConvertSt a t).2 = t := by
  simp only [ConvertSt, readTbl]
  by_cases hin : (t.getD 0 ⟨0, 0⟩).adc ≤ a ∧ a ≤ (t.getD TABLE_SIZE ⟨0, 0⟩).adc
  · rw [if_pos hin]
    by_cases h0 : a = (t.getD 0 ⟨0, 0⟩).adc
    · rw [if_pos h0]
    · rw [if_neg h0]
      by_cases hT : a = (t.getD TABLE_SIZE ⟨0, 0⟩).adc
      · rw [if_pos hT]
      · rw [if_neg hT]
        have hst := searchLoopSt_state a 90 0 TABLE_SIZE t
        cases hres : searchLoopSt a 90 0 TABLE_SIZE t with
        | mk ex t2 =>
          rw [hres] at hst
          cases ex with
          | exact m => simpa [readTbl] using hst
          | collapse u v => simpa [interpSt, readTbl] using hst
          | fuelOut => exact hst
  · rw [if_neg hin]
    show (extrapolateSt a t).2 = t
    simp only [extrapolateSt]
    exact sumLoopSt_state _ _ _ t

theorem searchLoopSt_eq (a : Int) :
    ∀ fuel s e, searchLoopSt a fuel s e pressureTable = (searchLoop a fuel s e, pressureTable) := by
  intro fuel
  induction fuel with
  | zero => intro s e; rfl
  | succ n ih =>
    intro s e
    simp only [searchLoopSt, searchLoop, readTbl, tblA, tblEntry]
    by_cases h1 : a = (pressureTable.getD (s + (e - s) / 2) ⟨0, 0⟩).adc
    · rw [if_pos h1, if_pos h1]
    · rw [if_neg h1, if_neg h1]
      by_cases h2 : s + (e - s) / 2 = s
      · rw [if_pos h2, if_pos h2]
      · rw [if_neg h2, if_neg h2]
        by_cases h3 : a < (pressureTable.getD (s + (e - s) / 2) ⟨0, 0⟩).adc
        · rw [if_pos h3, if_pos h3]; exact ih s _
        · rw [if_neg h3, if_neg h3]; exact ih _ e

theorem sumLoopSt_eq : ∀ n i sums,
    sumLoopSt n i sums pressureTable = (sumLoop n i sums, pressureTable) := by
  intro n
  induction n with
  | zero => intro i sums; rfl
  | succ m ih =>
    intro i sums
    obtain ⟨sxy, sx, sy, sxx⟩ := sums
    simp only [sumLoopSt, sumLoop, readTbl, tblA, tblP, tblEntry]
    exact ih _ _

/-- C8.  The conversion is deterministic and side-effect free: the table
state is returned unchanged, a repeated call on the state left by a first
call returns the same result, and the state-threaded run on the reference
table computes exactly `ConvertADCReadingToPressure`. -/
theorem ConvertSt_pure (a : Int) (t : List PressureTableEntry) :
    (ConvertSt a t).2 = t ∧
    (ConvertSt a ((ConvertSt a t).2)).1 = (ConvertSt a t).1 ∧
    (ConvertSt a pressureTable).1 = ConvertADCReadingToPressure a := by
  refine ⟨ConvertSt_state a t, by rw [ConvertSt_state a t], ?_⟩
  simp only [ConvertSt, ConvertADCReadingToPressure, readTbl, tblA, tblP, tblEntry]
  by_cases hin : (pressureTable.getD 0 ⟨0, 0⟩).adc ≤ a ∧
      a ≤ (pressureTable.getD TABLE_SIZE ⟨0, 0⟩).adc
  · rw [if_pos hin, if_pos hin]
    by_cases h0 : a = (pressureTable.getD 0 ⟨0, 0⟩).adc
    · rw [if_pos h0, if_pos h0]
    · rw [if_neg h0, if_neg h0]
      by_cases hT : a = (pressureTable.getD TABLE_SIZE ⟨0, 0⟩).adc
      · rw [if_pos hT, if_pos hT]
      · rw [if_neg hT, if_neg hT]
        rw [searchLoopSt_eq]
        cases searchLoop a 90 0 TABLE_SIZE with
        | exact m => rfl
        | collapse u v => simp [interpSt, readTbl, interp, tblP, tblA, tblEntry]
        | fuelOut => rfl
  · rw [if_neg hin, if_neg hin]
    show (extrapolateSt a pressureTable).1 = extrapolate a
    simp only [extrapolateSt, extrapolate, sumLoopSt_eq, slopeC, interceptC,
      sumOfADC_iTimesP_i, sumOfADC_i, sumOfP_i, sumOfADC_iSquared, extrapSums]

end PressureSensor

namespace PressureSensor

/-! ## Extrapolation: concrete behaviour of the out-of-range path -/

set_option maxRecDepth 4000 in
/-- C3 (code bug).  The `sum / TABLE_SIZE` assignments do *not* produce the
per-point means `S / N`: the unparenthesised macro makes them `S / 91 - 1`.
Evaluated at the out-of-range failing input 1000: the code returns 7580,
while the claim's prescription (divide each accumulator by the number of
table entries) yields 8056 with the true count `N = 91` and 8144 with the
count `N = 90` the claim names. -/
theorem extrapolation_mean_divergence :
    pressureTable.length = 91 ∧
    divByTABLE_SIZE sumOfADC_i = 7711 ∧
    sumOfADC_i.tdiv 91 = 7712 ∧
    sumOfADC_i.tdiv 90 = 7797 ∧
    ConvertADCReadingToPressure 1000 = 7580 ∧
    extrapolateSpecMeans 91 1000 = 8056 ∧
    extrapolateSpecMeans 90 1000 = 8144 := by
  decide

/-- C6 counterexample: the reference table does not have 90 entries. -/
theorem pressureTable_not_ninety : pressureTable.length ≠ 90 := by decide

set_option maxRecDepth 4000 in
/-- C6 (amended).  With the reference 91-entry table, reading 1000 is
out of range, is computed by the extrapolation path, and yields a value
below 10000; reading 20000 is out of range, is extrapolated, and yields a
value above 100000. -/
theorem convert_extrapolation_scenarios :
    pressureTable.length = 91 ∧
    ¬ (tblA 0 ≤ (1000 : Int) ∧ (1000 : Int) ≤ tblA TABLE_SIZE) ∧
    ConvertADCReadingToPressure 1000 = extrapolate 1000 ∧
    ConvertADCReadingToPressure 1000 < 10000 ∧
    ¬ (tblA 0 ≤ (20000 : Int) ∧ (20000 : Int) ≤ tblA TABLE_SIZE) ∧
    ConvertADCReadingToPressure 20000 = extrapolate 20000 ∧
    (100000 : Int) < ConvertADCReadingToPressure 20000 := by
  decide

set_option maxRecDepth 4000 in
/-- C9.  The 64-bit extrapolation result is narrowed into the 32-bit
`pressure` variable: at the out-of-range reading 357913678 the true value
`slope * a + intercept` is exactly 2^31, the function returns that value
reduced modulo 2^32 (i.e. −2^31), and monotonicity over the signed-integer
input domain fails (the smaller reading 357913677 yields a larger output). -/
theorem extrapolation_wraps_int32 :
    ¬ (tblA 0 ≤ (357913678 : Int) ∧ (357913678 : Int) ≤ tblA TABLE_SIZE) ∧
    slopeC * 357913678 + interceptC = 2 ^ 31 ∧
    ConvertADCReadingToPressure 357913678 = wrap32 (slopeC * 357913678 + interceptC) ∧
    ConvertADCReadingToPressure 357913678 = slopeC * 357913678 + interceptC - 2 ^ 32 ∧
    ConvertADCReadingToPressure 357913678 = -(2 ^ 31) ∧
    (357913677 : Int) < 357913678 ∧
    ConvertADCReadingToPressure 357913678 < ConvertADCReadingToPressure 357913677 := by
  decide

end PressureSensor

namespace PressureSensor

/-- Witness for C5 at the concrete reading 1800. -/
theorem ConvertChk_total_witness :
    ConvertChk 1800 = some (ConvertADCReadingToPressure 1800) :=
  ConvertChk_total 1800

/-- Witness for C8 at the concrete reading 1800 and the empty table state. -/
theorem ConvertSt_pure_witness :
    (ConvertSt 1800 []).2 = [] ∧
    (ConvertSt 1800 ((ConvertSt 1800 []).2)).1 = (ConvertSt 1800 []).1 ∧
    (ConvertSt 1800 pressureTable).1 = ConvertADCReadingToPressure 1800 :=
  ConvertSt_pure 1800 []

end PressureSensor
